import Mathlib

set_option maxRecDepth 8000

/-!
Verification development for the rust-analyzer read-benchmark repository
(src/main.rs).  The development shallowly embeds:

* the path operation `Path::parent` used by the crate-resolution step,
  for the slash-separated paths the program manipulates;
* the project data model (`JsonProject`, `Crate`, `Dep`, `Source`, `Build`,
  `Runnable`, `Sysroot`, `Edition`, `TargetKind`, `RunnableKind`) with
  `PathBuf` as `String`, `FxHashMap` as an association list whose key list
  is kept duplicate-free by last-write-wins insertion, and `FxHashSet` as a
  duplicate-free list;
* serde's derived JSON serialization and deserialization for the model,
  following the attributes in the source (`skip_serializing_if`, `flatten`,
  `rename`, `rename_all = "camelCase"`); a field of type `Option` that is
  missing deserializes to `none` (serde's `missing_field` path), any other
  missing field is a missing-field error, because no field carries
  `#[serde(default)]`;
* the crate-resolution step of `handle_project_json` (lines 82-88), whose
  `display_name.clone().unwrap()` panic is modelled as an `Except.error`;
* the per-unit source loader (lines 91-96): `WalkDir` is modelled as an
  oracle returning the enumerator's entry sequence for a root (entries are
  either successful entries carrying an is-file flag, or walk errors, which
  `filter_map(|e| e.ok())` drops), and `fs::read_to_string` as an oracle
  from path to `Except`; `collect::<Result<Vec<_>, _>>` is the
  short-circuiting `mapEx`;
* the rayon fan-out collection into `FxHashMap` (lines 79-99): workers
  finish in an arbitrary order, so the scheduler is parameterized by a
  completion order that is a permutation of the resolved unit list, and the
  results are inserted into the map in that order (last write wins).
-/

/-! ### Paths

`PathBuf` is modelled as a `String`.  `pathParent` mirrors
`std::path::Path::parent` for ordinary slash-separated paths: the path minus
its last component, `none` when there is no component (the empty path and
the root `"/"`).  Repeated separators are collapsed exactly as `Path`'s
component iterator does. -/

def splitSlashAux : List Char → List Char → List (List Char)
  | [], cur => [cur.reverse]
  | c :: rest, cur =>
    if c = '/' then cur.reverse :: splitSlashAux rest [] else splitSlashAux rest (c :: cur)

def pathComponents (s : String) : List String :=
  ((splitSlashAux s.data []).filter (fun l => l ≠ [])).map (fun l => String.mk l)

def isAbsolute (s : String) : Bool :=
  match s.data with
  | [] => false
  | c :: _ => c == '/'

def joinAux : List String → String
  | [] => ""
  | [c] => c
  | c :: rest => c ++ ("/") ++ joinAux rest

def joinPath (abs : Bool) (cs : List String) : String :=
  (if abs then ("/") else ("")) ++ joinAux cs

def pathParent (s : String) : Option String :=
  match pathComponents s with
  | [] => none
  | cs => some (joinPath (isAbsolute s) cs.dropLast)

/-! ### The data model (src/main.rs lines 107-313) -/

inductive Edition where
  | Edition2015
  | Edition2018
  | Edition2021

/-- Rust `Edition::default()` (the `#[default]` variant of the `Default`
derive on `Edition`). -/
def defaultEdition : Edition := Edition.Edition2021

inductive TargetKind where
  | Bin
  | Lib
  | Example
  | Test
  | Bench
  | BuildScript
  | Other

/-- Rust `TargetKind::default()` (the `#[default]` variant of the `Default`
derive on `TargetKind`). -/
def defaultTargetKind : TargetKind := TargetKind.Bin

inductive RunnableKind where
  | Check
  | Flycheck
  | Run
  | TestOne

structure Runnable where
  program : String
  args : List String
  cwd : String
  kind : RunnableKind

structure Build where
  label : String
  build_file : String
  target_kind : TargetKind

structure Source where
  include_dirs : List String
  exclude_dirs : List String

structure Dep where
  crate_index : Nat
  name : String

structure Sysroot where
  sysroot : String
  sysroot_src : Option String

structure Crate where
  display_name : Option String
  root_module : String
  edition : Edition
  deps : List Dep
  is_workspace_member : Bool
  source : Option Source
  cfg : List String
  target : Option String
  build : Option Build
  env : List (String × String)
  is_proc_macro : Bool
  proc_macro_dylib_path : Option String

structure JsonProject where
  sysroot : Sysroot
  crates : List Crate
  runnables : List Runnable
  generated : String

/-- Replace a crate's `source` field, leaving every other field unchanged
(used to state that the loader ignores the include/exclude override). -/
def setSource (c : Crate) (src : Option Source) : Crate :=
  { c with source := src }

/-! ### Crate resolution (src/main.rs lines 82-88)

The `filter_map` closure computes `krate.root_module.parent()`; when it is
`Some(path)` it yields `(krate.display_name.clone().unwrap(), path)`,
otherwise it skips the crate.  The `unwrap` panics when `display_name` is
`None`; the panic is modelled as `Except.error`. -/

def resolve_roots : List Crate → Except String (List (String × String))
  | [] => .ok []
  | c :: rest =>
    match pathParent c.root_module with
    | none => resolve_roots rest
    | some dir =>
      match c.display_name with
      | none => .error ("called Option::unwrap() on a None value")
      | some nm =>
        match resolve_roots rest with
        | .error e => .error e
        | .ok tl => .ok ((nm, dir) :: tl)

/-! ### The filesystem oracle and the per-unit loader (lines 91-96) -/

/-- One item yielded by the `WalkDir` iterator: either a directory entry
(with its path and `file_type().is_file()` flag) or a walk error. -/
inductive WalkEntry where
  | ok (path : String) (is_file : Bool)
  | err (msg : String)

def isErrEntry : WalkEntry → Bool
  | WalkEntry.err _ => true
  | _ => false

/-- The external filesystem capabilities used by the loader: the sequence of
entries the recursive directory enumerator yields for a root, and
`fs::read_to_string`. -/
structure FS where
  walk : String → List WalkEntry
  read_to_string : String → Except String String

/-- The entries surviving `.filter_map(|e| e.ok())`. -/
def okEntries (fs : FS) (d : String) : List (String × Bool) :=
  (fs.walk d).filterMap (fun it =>
    match it with
    | WalkEntry.ok p b => some (p, b)
    | WalkEntry.err _ => none)

/-- Paths of the regular files the enumerator yielded for a root, in
encounter order: `.filter_map(|e| e.ok()).filter(|e| e.file_type().is_file())`. -/
def fileEntries (fs : FS) (d : String) : List String :=
  ((okEntries fs d).filter (fun e => e.2)).map Prod.fst

/-- The number of regular files the enumerator reaches under a root. -/
def countFiles (fs : FS) (d : String) : Nat :=
  (fileEntries fs d).length

/-- `collect::<Result<Vec<B>, E>>()` over an iterator of results:
short-circuits at the first error. -/
def mapEx {α β : Type} (f : α → Except String β) : List α → Except String (List β)
  | [] => .ok []
  | x :: xs =>
    match f x with
    | .error e => .error e
    | .ok y =>
      match mapEx f xs with
      | .error e => .error e
      | .ok ys => .ok (y :: ys)

def exOk {α : Type} : Except String α → Bool
  | .ok _ => true
  | .error _ => false

/-- The per-unit body of the fan-out `map` (lines 91-96): walk the directory,
keep regular files, read each as text, collect fail-fast. -/
def load_unit (fs : FS) (d : String) : Except String (List String) :=
  mapEx (fun p => fs.read_to_string p) (fileEntries fs d)

/-- The same filesystem with every walk error removed from the enumerator's
stream (the reads are unchanged). -/
def eraseErrs (fs : FS) : FS :=
  ⟨fun d => (fs.walk d).filter (fun it => !isErrEntry it), fs.read_to_string⟩

/-! ### The fan-out scheduler (lines 79-99)

`par_bridge().map(...).collect::<FxHashMap<_, _>>()`: per-unit results are
inserted into a hash map in worker-completion order.  The map is modelled as
an association list with `insertMap` (replace the key's entry in place if
present, append otherwise — the key list stays duplicate-free), and the
completion order as any permutation of the resolved unit list. -/

def insertMap {α : Type} : List (String × α) → String → α → List (String × α)
  | [], k, v => [(k, v)]
  | (k', v') :: rest, k, v =>
    if k' = k then (k, v) :: rest else (k', v') :: insertMap rest k v

def insertList {α : Type} (m : List (String × α)) (l : List (String × α)) : List (String × α) :=
  l.foldl (fun acc kv => insertMap acc kv.1 kv.2) m

def lookupMap {α : Type} : List (String × α) → String → Option α
  | [], _ => none
  | (k', v) :: rest, k => if k' = k then some v else lookupMap rest k

/-- The value of the last pair carrying key `k`, if any. -/
def lastVal {α : Type} : List (String × α) → String → Option α
  | [], _ => none
  | (k', v) :: rest, k =>
    match lastVal rest k with
    | some w => some w
    | none => if k' = k then some v else none

/-- The result mapping assembled by the fan-out over `completed`, the list of
(unit name, source root) pairs in worker-completion order. -/
def schedule (fs : FS) (completed : List (String × String)) :
    List (String × Except String (List String)) :=
  insertList [] (completed.map (fun u => (u.1, load_unit fs u.2)))

/-- A root the enumerator traverses without error and all of whose regular
files read successfully. -/
def goodRoot (fs : FS) (d : String) : Prop :=
  ((fs.walk d).all (fun it => !isErrEntry it)) = true ∧
    ((fileEntries fs d).all (fun p => exOk (fs.read_to_string p))) = true

/-! ### JSON documents -/

inductive Json where
  | null
  | bool (b : Bool)
  | num (n : Nat)
  | str (s : String)
  | arr (xs : List Json)
  | obj (fields : List (String × Json))

def objKeys : Json → List String
  | .obj fields => fields.map Prod.fst
  | _ => []

/-! ### Serialization (serde `Serialize` derives)

Fields appear in declaration order; a field under
`#[serde(skip_serializing_if = "Option::is_none")]` is omitted when `none`;
`display_name` and `sysroot_src`-free options without that attribute
serialize `none` as `null`; `#[serde(flatten)]` inlines `Sysroot`'s fields
into the project object; `Edition` serializes via its `rename` literals and
`TargetKind`/`RunnableKind` via `rename_all = "camelCase"`. -/

def optPair (k : String) (o : Option Json) : List (String × Json) :=
  match o with
  | none => []
  | some v => [(k, v)]

def jStrOpt : Option String → Json
  | none => .null
  | some s => .str s

def sEdition : Edition → Json
  | Edition.Edition2015 => .str ("2015")
  | Edition.Edition2018 => .str ("2018")
  | Edition.Edition2021 => .str ("2021")

def sTargetKind : TargetKind → Json
  | TargetKind.Bin => .str ("bin")
  | TargetKind.Lib => .str ("lib")
  | TargetKind.Example => .str ("example")
  | TargetKind.Test => .str ("test")
  | TargetKind.Bench => .str ("bench")
  | TargetKind.BuildScript => .str ("buildScript")
  | TargetKind.Other => .str ("other")

def sRunnableKind : RunnableKind → Json
  | RunnableKind.Check => .str ("check")
  | RunnableKind.Flycheck => .str ("flycheck")
  | RunnableKind.Run => .str ("run")
  | RunnableKind.TestOne => .str ("testOne")

def sDep (d : Dep) : Json :=
  .obj [("crate", .num d.crate_index), ("name", .str d.name)]

def sSource (s : Source) : Json :=
  .obj [("include_dirs", .arr (s.include_dirs.map Json.str)),
        ("exclude_dirs", .arr (s.exclude_dirs.map Json.str))]

def sBuild (b : Build) : Json :=
  .obj [("label", .str b.label), ("build_file", .str b.build_file),
        ("target_kind", sTargetKind b.target_kind)]

def sRunnable (r : Runnable) : Json :=
  .obj [("program", .str r.program), ("args", .arr (r.args.map Json.str)),
        ("cwd", .str r.cwd), ("kind", sRunnableKind r.kind)]

def sCrate (c : Crate) : Json :=
  match c with
  | ⟨dn, rm, ed, dps, wm, src, cfg, tgt, bld, env, pm, pmd⟩ =>
    .obj ([("display_name", jStrOpt dn), ("root_module", .str rm),
           ("edition", sEdition ed), ("deps", .arr (dps.map sDep)),
           ("is_workspace_member", .bool wm)]
      ++ optPair ("source") (src.map sSource)
      ++ [("cfg", .arr (cfg.map Json.str))]
      ++ optPair ("target") (tgt.map Json.str)
      ++ optPair ("build") (bld.map sBuild)
      ++ [("env", .obj (env.map (fun kv => (kv.1, Json.str kv.2)))),
          ("is_proc_macro", .bool pm)]
      ++ optPair ("proc_macro_dylib_path") (pmd.map Json.str))

def sProject (p : JsonProject) : Json :=
  match p with
  | ⟨⟨sr, srs⟩, crates, runnables, gen⟩ =>
    .obj ([("sysroot", .str sr)]
      ++ optPair ("sysroot_src") (srs.map Json.str)
      ++ [("crates", .arr (crates.map sCrate)),
          ("runnables", .arr (runnables.map sRunnable)),
          ("generated", .str gen)])

/-! ### Deserialization (serde `Deserialize` derives)

Unknown object fields are ignored (no `deny_unknown_fields`; at the project
level the unmatched fields feed the flattened `Sysroot`).  A duplicated
field is a duplicate-field error.  A missing field of `Option` type becomes
`none` (serde's `missing_field` succeeds through `deserialize_option`); any
other missing field errors, since no field carries `#[serde(default)]`.
Maps (`FxHashMap`) insert entries in document order, last write wins; sets
(`FxHashSet`) drop duplicates. -/

def getAll : List (String × Json) → String → List Json
  | [], _ => []
  | (k', v) :: rest, k =>
    if k' = k then v :: getAll rest k else getAll rest k

def reqField (fields : List (String × Json)) (k : String) : Except String Json :=
  match getAll fields k with
  | [] => .error (("missing field ") ++ k)
  | [v] => .ok v
  | _ => .error (("duplicate field ") ++ k)

def optField (fields : List (String × Json)) (k : String) : Except String (Option Json) :=
  match getAll fields k with
  | [] => .ok none
  | [v] => .ok (some v)
  | _ => .error (("duplicate field ") ++ k)

def andThen {α β : Type} (x : Except String α) (f : α → Except String β) : Except String β :=
  match x with
  | .error e => .error e
  | .ok v => f v

def dString : Json → Except String String
  | .str s => .ok s
  | _ => .error ("invalid type: expected a string")

def dBool : Json → Except String Bool
  | .bool b => .ok b
  | _ => .error ("invalid type: expected a boolean")

def dNat : Json → Except String Nat
  | .num n => .ok n
  | _ => .error ("invalid type: expected an integer")

def dOpt {α : Type} (d : Json → Except String α) : Json → Except String (Option α)
  | .null => .ok none
  | j =>
    match d j with
    | .error e => .error e
    | .ok v => .ok (some v)

def dJsonList {α : Type} (d : Json → Except String α) : Json → Except String (List α)
  | .arr xs => mapEx d xs
  | _ => .error ("invalid type: expected an array")

def requiredField {α : Type} (fields : List (String × Json)) (k : String)
    (d : Json → Except String α) : Except String α :=
  andThen (reqField fields k) d

def optionField {α : Type} (fields : List (String × Json)) (k : String)
    (d : Json → Except String α) : Except String (Option α) :=
  match optField fields k with
  | .error e => .error e
  | .ok none => .ok none
  | .ok (some j) => dOpt d j

def dEdition : Json → Except String Edition
  | .str s =>
    if s = "2015" then .ok Edition.Edition2015
    else if s = "2018" then .ok Edition.Edition2018
    else if s = "2021" then .ok Edition.Edition2021
    else .error (("unknown variant ") ++ s)
  | _ => .error ("invalid type: expected a string for an edition")

def dTargetKind : Json → Except String TargetKind
  | .str s =>
    if s = "bin" then .ok TargetKind.Bin
    else if s = "lib" then .ok TargetKind.Lib
    else if s = "example" then .ok TargetKind.Example
    else if s = "test" then .ok TargetKind.Test
    else if s = "bench" then .ok TargetKind.Bench
    else if s = "buildScript" then .ok TargetKind.BuildScript
    else if s = "other" then .ok TargetKind.Other
    else .error (("unknown variant ") ++ s)
  | _ => .error ("invalid type: expected a string for a target kind")

def dRunnableKind : Json → Except String RunnableKind
  | .str s =>
    if s = "check" then .ok RunnableKind.Check
    else if s = "flycheck" then .ok RunnableKind.Flycheck
    else if s = "run" then .ok RunnableKind.Run
    else if s = "testOne" then .ok RunnableKind.TestOne
    else .error (("unknown variant ") ++ s)
  | _ => .error ("invalid type: expected a string for a runnable kind")

def dDep (j : Json) : Except String Dep :=
  match j with
  | .obj fields =>
    andThen (requiredField fields ("crate") dNat) (fun i =>
    andThen (requiredField fields ("name") dString) (fun nm =>
    .ok ⟨i, nm⟩))
  | _ => .error ("invalid type: expected a dep object")

def insertSet (s : List String) (v : String) : List String :=
  if v ∈ s then s else s ++ [v]

def dStringSetAux : List Json → List String → Except String (List String)
  | [], acc => .ok acc
  | j :: rest, acc =>
    match j with
    | .str v => dStringSetAux rest (insertSet acc v)
    | _ => .error ("invalid type: expected a string in a set")

def dStringSet : Json → Except String (List String)
  | .arr xs => dStringSetAux xs []
  | _ => .error ("invalid type: expected an array for a set")

def dStringMapAux : List (String × Json) → List (String × String) →
    Except String (List (String × String))
  | [], acc => .ok acc
  | (k, j) :: rest, acc =>
    match j with
    | .str v => dStringMapAux rest (insertMap acc k v)
    | _ => .error ("invalid type: expected a string in a map")

def dStringMap : Json → Except String (List (String × String))
  | .obj fields => dStringMapAux fields []
  | _ => .error ("invalid type: expected an object for a map")

def dSource (j : Json) : Except String Source :=
  match j with
  | .obj fields =>
    andThen (requiredField fields ("include_dirs") dStringSet) (fun inc =>
    andThen (requiredField fields ("exclude_dirs") dStringSet) (fun exc =>
    .ok ⟨inc, exc⟩))
  | _ => .error ("invalid type: expected a source object")

def dBuild (j : Json) : Except String Build :=
  match j with
  | .obj fields =>
    andThen (requiredField fields ("label") dString) (fun lb =>
    andThen (requiredField fields ("build_file") dString) (fun bf =>
    andThen (requiredField fields ("target_kind") dTargetKind) (fun tk =>
    .ok ⟨lb, bf, tk⟩)))
  | _ => .error ("invalid type: expected a build object")

def dRunnable (j : Json) : Except String Runnable :=
  match j with
  | .obj fields =>
    andThen (requiredField fields ("program") dString) (fun pr =>
    andThen (requiredField fields ("args") (dJsonList dString)) (fun ar =>
    andThen (requiredField fields ("cwd") dString) (fun cw =>
    andThen (requiredField fields ("kind") dRunnableKind) (fun kn =>
    .ok ⟨pr, ar, cw, kn⟩))))
  | _ => .error ("invalid type: expected a runnable object")

def dCrate (j : Json) : Except String Crate :=
  match j with
  | .obj fields =>
    andThen (optionField fields ("display_name") dString) (fun dn =>
    andThen (requiredField fields ("root_module") dString) (fun rm =>
    andThen (requiredField fields ("edition") dEdition) (fun ed =>
    andThen (requiredField fields ("deps") (dJsonList dDep)) (fun dps =>
    andThen (requiredField fields ("is_workspace_member") dBool) (fun wm =>
    andThen (optionField fields ("source") dSource) (fun src =>
    andThen (requiredField fields ("cfg") (dJsonList dString)) (fun cfg =>
    andThen (optionField fields ("target") dString) (fun tgt =>
    andThen (optionField fields ("build") dBuild) (fun bld =>
    andThen (requiredField fields ("env") dStringMap) (fun env =>
    andThen (requiredField fields ("is_proc_macro") dBool) (fun pm =>
    andThen (optionField fields ("proc_macro_dylib_path") dString) (fun pmd =>
    .ok ⟨dn, rm, ed, dps, wm, src, cfg, tgt, bld, env, pm, pmd⟩))))))))))))
  | _ => .error ("invalid type: expected a crate object")

def dProject (j : Json) : Except String JsonProject :=
  match j with
  | .obj fields =>
    andThen (requiredField fields ("crates") (dJsonList dCrate)) (fun crates =>
    andThen (requiredField fields ("runnables") (dJsonList dRunnable)) (fun runnables =>
    andThen (requiredField fields ("generated") dString) (fun gen =>
    andThen (requiredField fields ("sysroot") dString) (fun sr =>
    andThen (optionField fields ("sysroot_src") dString) (fun srs =>
    .ok ⟨⟨sr, srs⟩, crates, runnables, gen⟩)))))
  | _ => .error ("invalid type: expected a project object")

/-! ### Well-formedness produced by deserialization

Hash maps never hold a key twice and hash sets never hold an element twice;
deserialization establishes this, serialization relies on it. -/

def WFSource (s : Source) : Prop :=
  s.include_dirs.Nodup ∧ s.exclude_dirs.Nodup

def WFCrate (c : Crate) : Prop :=
  (c.env.map Prod.fst).Nodup ∧ ∀ s, c.source = some s → WFSource s

def WFProject (p : JsonProject) : Prop :=
  ∀ c, c ∈ p.crates → WFCrate c

/-! ### Concrete fixtures used by counterexamples and witnesses -/

/-- The crate `{display_name: "a", root_module: "/ws/a/lib.rs"}` of the
spec's concrete scenario. -/
def crateA : Crate :=
  ⟨some ("a"), ("/ws/a/lib.rs"), Edition.Edition2021, [], true, none, [],
    none, none, [], false, none⟩

/-- The crate `{display_name: null, root_module: "/ws/b/lib.rs"}` of the
spec's concrete scenario. -/
def crateB : Crate :=
  ⟨none, ("/ws/b/lib.rs"), Edition.Edition2021, [], true, none, [],
    none, none, [], false, none⟩

/-- A filesystem on which every root is missing: the enumerator yields a
single walk error for any root. -/
def fsGone : FS :=
  ⟨fun _ => [WalkEntry.err ("No such file or directory")], fun _ => .ok ("")⟩

/-- A small filesystem: `/ws/a` and `/ws/b` are healthy roots, the file
under `/ws/c` is unreadable, and `/ws/e` contains an unreadable subtree
(one walk error) next to a readable file; every other root is missing. -/
def fsDemo : FS where
  walk := fun d =>
    if d = "/ws/a" then [WalkEntry.ok ("/ws/a/lib.rs") true]
    else if d = "/ws/b" then
      [WalkEntry.ok ("/ws/b") false, WalkEntry.ok ("/ws/b/lib.rs") true,
       WalkEntry.ok ("/ws/b/util.rs") true]
    else if d = "/ws/c" then [WalkEntry.ok ("/ws/c/lib.rs") true]
    else if d = "/ws/e" then
      [WalkEntry.err ("Permission denied"), WalkEntry.ok ("/ws/e/lib.rs") true]
    else [WalkEntry.err ("No such file or directory")]
  read_to_string := fun p =>
    if p = "/ws/a/lib.rs" then .ok ("pub mod a;")
    else if p = "/ws/b/lib.rs" then .ok ("pub mod b;")
    else if p = "/ws/b/util.rs" then .ok ("pub fn util();")
    else if p = "/ws/e/lib.rs" then .ok ("pub mod e;")
    else .error ("Permission denied (os error 13)")

/-- A serialized crate object that omits `edition` but carries every other
required field. -/
def crateObjNoEdition : Json :=
  Json.obj [("display_name", Json.null),
            ("root_module", Json.str ("/ws/a/lib.rs")),
            ("deps", Json.arr []),
            ("is_workspace_member", Json.bool true),
            ("cfg", Json.arr []),
            ("env", Json.obj []),
            ("is_proc_macro", Json.bool false)]

/-- A serialized build object that omits `target_kind`. -/
def buildObjNoTargetKind : Json :=
  Json.obj [("label", Json.str ("//ws/a:a")), ("build_file", Json.str ("/ws/a/BUCK"))]

/-- A plain serialized crate object with the given display name and root
module. -/
def crateObjSimple (nm rm : String) : Json :=
  Json.obj [("display_name", Json.str nm),
            ("root_module", Json.str rm),
            ("edition", Json.str ("2021")),
            ("deps", Json.arr []),
            ("is_workspace_member", Json.bool true),
            ("cfg", Json.arr []),
            ("env", Json.obj []),
            ("is_proc_macro", Json.bool false)]

/-- A serialized crate object whose single dependency points at crate index
`n`. -/
def crateObjWithDep (n : Nat) : Json :=
  Json.obj [("display_name", Json.str ("c")),
            ("root_module", Json.str ("/ws/c/lib.rs")),
            ("edition", Json.str ("2021")),
            ("deps", Json.arr [Json.obj [("crate", Json.num n), ("name", Json.str ("dangling"))]]),
            ("is_workspace_member", Json.bool true),
            ("cfg", Json.arr []),
            ("env", Json.obj []),
            ("is_proc_macro", Json.bool false)]

/-- A serialized project document with three crates whose third crate has a
dependency on crate index `n`. -/
def docWithDep (n : Nat) : Json :=
  Json.obj [("sysroot", Json.str ("/sysroot")),
            ("crates", Json.arr [crateObjSimple ("a") ("/ws/a/lib.rs"),
                                 crateObjSimple ("b") ("/ws/b/lib.rs"),
                                 crateObjWithDep n]),
            ("runnables", Json.arr []),
            ("generated", Json.str ("test-generator"))]

/-- The in-memory crate `crateObjSimple` deserializes to. -/
def crateSimple (nm rm : String) : Crate :=
  ⟨some nm, rm, Edition.Edition2021, [], true, none, [], none, none, [], false, none⟩

/-- The in-memory project `docWithDep n` deserializes to. -/
def projWithDep (n : Nat) : JsonProject :=
  ⟨⟨("/sysroot"), none⟩,
   [crateSimple ("a") ("/ws/a/lib.rs"),
    crateSimple ("b") ("/ws/b/lib.rs"),
    ⟨some ("c"), ("/ws/c/lib.rs"), Edition.Edition2021, [⟨n, ("dangling")⟩], true,
      none, [], none, none, [], false, none⟩],
   [], ("test-generator")⟩

/-! ### Lemmas about `andThen` and `mapEx` -/

@[simp]
theorem andThen_ok {α β : Type} (v : α) (f : α → Except String β) :
    andThen (.ok v) f = f v := rfl

@[simp]
theorem andThen_error {α β : Type} (e : String) (f : α → Except String β) :
    andThen (.error e) f = .error e := rfl

theorem andThen_ok_inv {α β : Type} {x : Except String α} {f : α → Except String β}
    {b : β} (h : andThen x f = .ok b) : ∃ a, x = .ok a ∧ f a = .ok b := by
  cases x with
  | error e => simp [andThen] at h
  | ok a => exact ⟨a, rfl, h⟩

theorem exOk_iff {α : Type} (x : Except String α) : exOk x = true ↔ ∃ v, x = .ok v := by
  cases x <;> simp [exOk]

theorem mapEx_ok_of_forall {α β : Type} (f : α → Except String β) (g : α → β)
    (xs : List α) (h : ∀ x ∈ xs, f x = .ok (g x)) : mapEx f xs = .ok (xs.map g) := by
  induction xs with
  | nil => rfl
  | cons x xs ih =>
    have hx := h x (List.mem_cons_self x xs)
    have ih' := ih (fun y hy => h y (List.mem_cons_of_mem x hy))
    simp [mapEx, hx, ih']

theorem mapEx_rt {α β : Type} (d : β → Except String α) (s : α → β) (l : List α)
    (h : ∀ x ∈ l, d (s x) = .ok x) : mapEx d (l.map s) = .ok l := by
  induction l with
  | nil => rfl
  | cons x xs ih =>
    have hx := h x (List.mem_cons_self x xs)
    have ih' := ih (fun y hy => h y (List.mem_cons_of_mem x hy))
    simp [mapEx, hx, ih']

theorem mapEx_error_first {α β : Type} (f : α → Except String β) (pre : List α)
    (x : α) (post : List α) (e : String) (h1 : ∀ y ∈ pre, exOk (f y) = true)
    (h2 : f x = .error e) : mapEx f (pre ++ x :: post) = .error e := by
  induction pre with
  | nil => simp [mapEx, h2]
  | cons y ys ih =>
    have hy := h1 y (List.mem_cons_self y ys)
    obtain ⟨v, hv⟩ := (exOk_iff (f y)).mp hy
    simp [mapEx, hv, ih (fun z hz => h1 z (List.mem_cons_of_mem y hz))]

theorem mapEx_ok_all {α β : Type} (f : α → Except String β) (xs : List α)
    (l : List β) (h : mapEx f xs = .ok l) :
    l.length = xs.length ∧ ∀ x ∈ xs, exOk (f x) = true := by
  induction xs generalizing l with
  | nil =>
    simp [mapEx] at h
    subst h
    simp
  | cons x xs ih =>
    cases hfx : f x with
    | error e => simp [mapEx, hfx] at h
    | ok v =>
      cases hrest : mapEx f xs with
      | error e => simp [mapEx, hfx, hrest] at h
      | ok vs =>
        simp [mapEx, hfx, hrest] at h
        obtain ⟨hl, hall⟩ := ih vs hrest
        subst h
        refine ⟨by simp [hl], ?_⟩
        intro z hz
        rcases List.mem_cons.mp hz with hz | hz
        · subst hz
          simp [exOk, hfx]
        · exact hall z hz

theorem mapEx_ok_exists {α β : Type} (f : α → Except String β) (xs : List α)
    (h : ∀ x ∈ xs, exOk (f x) = true) :
    ∃ l, mapEx f xs = .ok l ∧ l.length = xs.length := by
  induction xs with
  | nil => exact ⟨[], rfl, rfl⟩
  | cons x xs ih =>
    obtain ⟨v, hv⟩ := (exOk_iff (f x)).mp (h x (List.mem_cons_self x xs))
    obtain ⟨l, hl, hlen⟩ := ih (fun y hy => h y (List.mem_cons_of_mem x hy))
    exact ⟨v :: l, by simp [mapEx, hv, hl], by simp [hlen]⟩

theorem mapEx_error_source {α β : Type} (f : α → Except String β) (xs : List α)
    (e : String) (h : mapEx f xs = .error e) : ∃ x, x ∈ xs ∧ f x = .error e := by
  induction xs with
  | nil => simp [mapEx] at h
  | cons x xs ih =>
    cases hfx : f x with
    | error e' =>
      simp [mapEx, hfx] at h
      exact ⟨x, List.mem_cons_self x xs, by rw [hfx, h]⟩
    | ok v =>
      cases hrest : mapEx f xs with
      | error e' =>
        simp [mapEx, hfx, hrest] at h
        obtain ⟨y, hy, hfy⟩ := ih (by rw [hrest, h])
        exact ⟨y, List.mem_cons_of_mem x hy, hfy⟩
      | ok vs => simp [mapEx, hfx, hrest] at h

/-! ### Lemmas about the result map -/

theorem lookup_insertMap {α : Type} (m : List (String × α)) (k' k : String) (v : α) :
    lookupMap (insertMap m k' v) k = if k' = k then some v else lookupMap m k := by
  induction m with
  | nil => simp [insertMap, lookupMap]
  | cons kv rest ih =>
    obtain ⟨k'', v''⟩ := kv
    by_cases h1 : k'' = k'
    · subst h1
      by_cases h2 : k'' = k
      · subst h2
        simp [insertMap, lookupMap]
      · simp [insertMap, lookupMap, h2]
    · by_cases h2 : k'' = k
      · subst h2
        simp [insertMap, lookupMap, h1, Ne.symm h1]
      · simp [insertMap, lookupMap, h1, h2, ih]

theorem lookup_insertList {α : Type} (l : List (String × α)) (m : List (String × α))
    (k : String) :
    lookupMap (insertList m l) k = (lastVal l k).elim (lookupMap m k) some := by
  induction l generalizing m with
  | nil => simp [insertList, lastVal]
  | cons kv rest ih =>
    obtain ⟨k', v⟩ := kv
    have step : insertList m ((k', v) :: rest) = insertList (insertMap m k' v) rest := rfl
    rw [step, ih]
    cases hl : lastVal rest k with
    | some w => simp [lastVal, hl]
    | none =>
      by_cases h : k' = k
      · subst h
        simp [lastVal, hl, lookup_insertMap]
      · simp [lastVal, hl, h, lookup_insertMap]

theorem lastVal_none_iff {α : Type} (l : List (String × α)) (k : String) :
    lastVal l k = none ↔ k ∉ l.map Prod.fst := by
  induction l with
  | nil => simp [lastVal]
  | cons kv rest ih =>
    obtain ⟨k', v⟩ := kv
    cases hl : lastVal rest k with
    | some w =>
      have hmem : k ∈ rest.map Prod.fst := by
        by_contra hmem
        rw [ih.mpr hmem] at hl
        cases hl
      constructor
      · intro h0
        exfalso
        simp [lastVal, hl] at h0
      · intro h0
        exact absurd (by simp [hmem] : k ∈ ((k', v) :: rest).map Prod.fst) h0
    | none =>
      by_cases h : k' = k
      · subst h
        simp [lastVal, hl]
      · constructor
        · intro _
          simp only [List.map_cons, List.mem_cons]
          rintro (hk | hk)
          · exact h hk.symm
          · exact (ih.mp hl) hk
        · intro _
          simp [lastVal, hl, h]

theorem lookup_schedule (fs : FS) (completed : List (String × String)) (n : String) :
    lookupMap (schedule fs completed) n =
      lastVal (completed.map (fun u => (u.1, load_unit fs u.2))) n := by
  rw [schedule, lookup_insertList]
  cases lastVal (completed.map (fun u => (u.1, load_unit fs u.2))) n <;>
    simp [lookupMap]

theorem lastVal_map_of_filter_single {α β : Type} (l : List (String × α))
    (g : α → β) (n : String) (d : α)
    (h : l.filter (fun u => decide (u.1 = n)) = [(n, d)]) :
    lastVal (l.map (fun u => (u.1, g u.2))) n = some (g d) := by
  induction l with
  | nil => simp at h
  | cons kv rest ih =>
    obtain ⟨k', v⟩ := kv
    by_cases hk : k' = n
    · subst hk
      rw [List.filter_cons_of_pos (by simp)] at h
      have h1 : (k', v) = ((k', d) : String × α) := by
        have := List.head_eq_of_cons_eq h
        simpa using this
      have h2 : rest.filter (fun u => decide (u.1 = k')) = [] :=
        List.tail_eq_of_cons_eq h
      have hnot : k' ∉ (rest.map (fun u => (u.1, g u.2))).map Prod.fst := by
        simp only [List.map_map, List.mem_map]
        rintro ⟨u, hu, hequ⟩
        have hu1 : u.1 = k' := by simpa using hequ
        have : u ∈ rest.filter (fun x => decide (x.1 = k')) :=
          List.mem_filter.mpr ⟨hu, by simp [hu1]⟩
        simp [h2] at this
      have hv : v = d := by
        have := congrArg Prod.snd h1
        simpa using this
      subst hv
      simp [lastVal, (lastVal_none_iff _ _).mpr hnot]
    · rw [List.filter_cons_of_neg (by simp [hk])] at h
      have := ih h
      simp [lastVal, this]

theorem filter_eq_nil_keys {α : Type} (l : List (String × α)) (n : String)
    (h : l.filter (fun u => decide (u.1 = n)) = []) : n ∉ l.map Prod.fst := by
  intro hmem
  obtain ⟨u, hu, hequ⟩ := List.mem_map.mp hmem
  have : u ∈ l.filter (fun x => decide (x.1 = n)) :=
    List.mem_filter.mpr ⟨hu, by simp [hequ]⟩
  simp [h] at this

theorem nodup_filter_single {α : Type} (l : List (String × α))
    (hd : (l.map Prod.fst).Nodup) (u : String × α) (hu : u ∈ l) :
    l.filter (fun x => decide (x.1 = u.1)) = [u] := by
  induction l with
  | nil => simp at hu
  | cons kv rest ih =>
    have hd' : (rest.map Prod.fst).Nodup := (List.nodup_cons.mp (by simpa using hd)).2
    have hk : kv.1 ∉ rest.map Prod.fst := (List.nodup_cons.mp (by simpa using hd)).1
    rcases List.mem_cons.mp hu with hu1 | hu1
    · have hkey : kv.1 = u.1 := by rw [hu1]
      rw [List.filter_cons_of_pos (by simp [hkey])]
      have hnil : rest.filter (fun x => decide (x.1 = u.1)) = [] := by
        rw [List.filter_eq_nil_iff]
        intro a ha
        simp only [decide_eq_true_eq]
        intro hcontra
        apply hk
        rw [hkey, ← hcontra]
        exact List.mem_map.mpr ⟨a, ha, rfl⟩
      rw [hnil, hu1]
    · have hne : kv.1 ≠ u.1 := by
        intro hcontra
        exact hk (hcontra ▸ List.mem_map.mpr ⟨u, hu1, rfl⟩)
      rw [List.filter_cons_of_neg (by simp [hne])]
      exact ih hd' hu1

theorem sched_lookup_unique (fs : FS) (units completed : List (String × String))
    (n d : String) (hp : completed.Perm units)
    (hf : units.filter (fun u => decide (u.1 = n)) = [(n, d)]) :
    lookupMap (schedule fs completed) n = some (load_unit fs d) := by
  have hcf : completed.filter (fun u => decide (u.1 = n)) = [(n, d)] := by
    have hperm := hp.filter (fun u => decide (u.1 = n))
    rw [hf] at hperm
    exact List.perm_singleton.mp hperm
  rw [lookup_schedule]
  exact lastVal_map_of_filter_single completed (fun r => load_unit fs r) n d hcf

theorem insertMap_fresh {α : Type} (m : List (String × α)) (k : String) (v : α)
    (h : k ∉ m.map Prod.fst) : insertMap m k v = m ++ [(k, v)] := by
  induction m with
  | nil => rfl
  | cons kv rest ih =>
    obtain ⟨k', v'⟩ := kv
    have hne : ¬ (k' = k) := by
      intro hc
      exact h (by simp [hc])
    have hrest : k ∉ rest.map Prod.fst := fun hc => h (by simp [hc])
    simp [insertMap, hne, ih hrest]

theorem insertList_fresh {α : Type} (l m : List (String × α))
    (hnd : (l.map Prod.fst).Nodup)
    (hdisj : ∀ k ∈ l.map Prod.fst, k ∉ m.map Prod.fst) :
    insertList m l = m ++ l := by
  induction l generalizing m with
  | nil => simp [insertList]
  | cons kv rest ih =>
    obtain ⟨k', v'⟩ := kv
    have h1 : k' ∉ m.map Prod.fst := hdisj k' (by simp)
    have hnd' : (rest.map Prod.fst).Nodup := (List.nodup_cons.mp (by simpa using hnd)).2
    have hknotin : k' ∉ rest.map Prod.fst := (List.nodup_cons.mp (by simpa using hnd)).1
    have hdisj' : ∀ k ∈ rest.map Prod.fst, k ∉ (m ++ [(k', v')]).map Prod.fst := by
      intro k hk
      simp only [List.map_append, List.mem_append]
      rintro (hc | hc)
      · exact hdisj k (by simp [hk]) hc
      · have hkk : k = k' := by simpa using hc
        exact hknotin (hkk ▸ hk)
    have step : insertList m ((k', v') :: rest) = insertList (insertMap m k' v') rest := rfl
    rw [step, insertMap_fresh m k' v' h1, ih (m ++ [(k', v')]) hnd' hdisj']
    simp

theorem insertMap_keys {α : Type} (m : List (String × α)) (k : String) (v : α) :
    (insertMap m k v).map Prod.fst =
      if k ∈ m.map Prod.fst then m.map Prod.fst else m.map Prod.fst ++ [k] := by
  induction m with
  | nil => simp [insertMap]
  | cons kv rest ih =>
    obtain ⟨k', v'⟩ := kv
    by_cases h : k' = k
    · subst h
      simp [insertMap]
    · by_cases h2 : k ∈ rest.map Prod.fst
      · simp [insertMap, h, ih, h2, Ne.symm h]
      · simp [insertMap, h, ih, h2, Ne.symm h]

theorem insertMap_keys_nodup {α : Type} (m : List (String × α)) (k : String) (v : α)
    (h : (m.map Prod.fst).Nodup) : ((insertMap m k v).map Prod.fst).Nodup := by
  rw [insertMap_keys]
  by_cases h2 : k ∈ m.map Prod.fst
  · simp [h2, h]
  · simp [h2, List.nodup_append, h]

theorem insertList_keys_nodup {α : Type} (l m : List (String × α))
    (h : (m.map Prod.fst).Nodup) : ((insertList m l).map Prod.fst).Nodup := by
  induction l generalizing m with
  | nil => simpa [insertList] using h
  | cons kv rest ih =>
    have step : insertList m (kv :: rest) = insertList (insertMap m kv.1 kv.2) rest := rfl
    rw [step]
    exact ih _ (insertMap_keys_nodup m kv.1 kv.2 h)

theorem schedule_keys_nodup (fs : FS) (completed : List (String × String)) :
    ((schedule fs completed).map Prod.fst).Nodup :=
  insertList_keys_nodup _ [] (by simp)

theorem lookup_filter_nodup {α : Type} (m : List (String × α)) (n : String) (v : α)
    (hnd : (m.map Prod.fst).Nodup) (h : lookupMap m n = some v) :
    m.filter (fun kv => decide (kv.1 = n)) = [(n, v)] := by
  induction m with
  | nil => simp [lookupMap] at h
  | cons kv rest ih =>
    obtain ⟨k', v'⟩ := kv
    have hpair : k' ∉ rest.map Prod.fst ∧ (rest.map Prod.fst).Nodup := by
      rw [List.map_cons] at hnd
      exact List.nodup_cons.mp hnd
    by_cases hk : k' = n
    · subst hk
      simp [lookupMap] at h
      rw [List.filter_cons_of_pos (by simp)]
      have hnil : rest.filter (fun kv => decide (kv.1 = k')) = [] := by
        rw [List.filter_eq_nil_iff]
        intro a ha
        simp only [decide_eq_true_eq]
        intro hc
        exact hpair.1 (hc ▸ List.mem_map.mpr ⟨a, ha, rfl⟩)
      rw [hnil, h]
    · simp [lookupMap, hk] at h
      rw [List.filter_cons_of_neg (by simp [hk])]
      exact ih hpair.2 h

theorem lastVal_filter {α : Type} (l : List (String × α)) (k : String) :
    lastVal l k = lastVal (l.filter (fun u => decide (u.1 = k))) k := by
  induction l with
  | nil => rfl
  | cons kv rest ih =>
    obtain ⟨k', v⟩ := kv
    by_cases h : k' = k
    · subst h
      rw [List.filter_cons_of_pos (by simp)]
      simp only [lastVal]
      rw [ih]
    · rw [List.filter_cons_of_neg (by simp [h])]
      rw [← ih]
      cases hl : lastVal rest k <;> simp [lastVal, hl, h]

theorem filter_map_key {α β : Type} (l : List (String × α)) (g : α → β) (n : String) :
    (l.map (fun u => (u.1, g u.2))).filter (fun kv => decide (kv.1 = n)) =
      (l.filter (fun u => decide (u.1 = n))).map (fun u => (u.1, g u.2)) := by
  induction l with
  | nil => rfl
  | cons kv rest ih =>
    obtain ⟨k', v⟩ := kv
    by_cases h : k' = n
    · subst h
      rw [List.map_cons, List.filter_cons_of_pos (by simp),
        List.filter_cons_of_pos (by simp), List.map_cons, ih]
    · rw [List.map_cons, List.filter_cons_of_neg (by simp [h]),
        List.filter_cons_of_neg (by simp [h]), ih]

theorem perm_pair {α : Type} (l : List α) (a b : α) (h : l.Perm [a, b]) :
    l = [a, b] ∨ l = [b, a] := by
  have hlen := h.length_eq
  cases l with
  | nil => simp at hlen
  | cons x t =>
    cases t with
    | nil => simp at hlen
    | cons y t2 =>
      cases t2 with
      | cons z t3 =>
        simp at hlen
      | nil =>
        have hx : x = a ∨ x = b := by
          have hmem : x ∈ [a, b] := h.mem_iff.mp (by simp)
          simpa using hmem
        rcases hx with hxa | hxb
        · left
          have hy : y = b := by
            have hcast : ([x, y] : List α).Perm [a, b] := h
            rw [hxa] at hcast
            simpa using List.perm_singleton.mp (List.Perm.cons_inv hcast)
          rw [hxa, hy]
        · right
          have hswap : ([a, b] : List α).Perm [b, a] := List.Perm.swap b a []
          have hy : y = a := by
            have hcast : ([x, y] : List α).Perm [a, b] := h
            rw [hxb] at hcast
            simpa using List.perm_singleton.mp (List.Perm.cons_inv (hcast.trans hswap))
          rw [hxb, hy]

theorem load_ok_of_good (fs : FS) (d : String) (h : goodRoot fs d) :
    ∃ l, load_unit fs d = .ok l ∧ l.length = countFiles fs d := by
  obtain ⟨-, h2⟩ := h
  have hall : ∀ p ∈ fileEntries fs d, exOk (fs.read_to_string p) = true := by
    intro p hp
    exact List.all_eq_true.mp h2 p hp
  obtain ⟨l, hl, hlen⟩ := mapEx_ok_exists _ _ hall
  exact ⟨l, hl, by simp [countFiles, hlen]⟩

theorem resolve_roots_setSource (crates : List Crate) (src : Option Source) :
    resolve_roots (crates.map (fun c => setSource c src)) = resolve_roots crates := by
  induction crates with
  | nil => rfl
  | cons c rest ih =>
    have hroot : (setSource c src).root_module = c.root_module := rfl
    have hname : (setSource c src).display_name = c.display_name := rfl
    simp only [List.map_cons, resolve_roots, hroot, hname, ih]

theorem filter_ok_filterMap (l : List WalkEntry) :
    (l.filter (fun it => !isErrEntry it)).filterMap (fun it =>
      match it with
      | WalkEntry.ok p b => some (p, b)
      | WalkEntry.err _ => none) =
    l.filterMap (fun it =>
      match it with
      | WalkEntry.ok p b => some (p, b)
      | WalkEntry.err _ => none) := by
  induction l with
  | nil => rfl
  | cons it rest ih =>
    cases it with
    | ok p b =>
      have hfil : (WalkEntry.ok p b :: rest).filter (fun it => !isErrEntry it)
          = WalkEntry.ok p b :: rest.filter (fun it => !isErrEntry it) := by
        rw [List.filter_cons_of_pos]
        simp [isErrEntry]
      rw [hfil]
      exact congrArg (fun l => (p, b) :: l) ih
    | err m =>
      have hfil : (WalkEntry.err m :: rest).filter (fun it => !isErrEntry it)
          = rest.filter (fun it => !isErrEntry it) := by
        rw [List.filter_cons_of_neg]
        simp [isErrEntry]
      rw [hfil]
      exact ih

theorem okEntries_eraseErrs (fs : FS) (d : String) :
    okEntries (eraseErrs fs) d = okEntries fs d := by
  have : (eraseErrs fs).walk d = (fs.walk d).filter (fun it => !isErrEntry it) := rfl
  rw [okEntries, this, okEntries]
  exact filter_ok_filterMap (fs.walk d)

theorem fileEntries_eraseErrs (fs : FS) (d : String) :
    fileEntries (eraseErrs fs) d = fileEntries fs d := by
  rw [fileEntries, fileEntries, okEntries_eraseErrs]

theorem load_unit_eraseErrs (fs : FS) (d : String) :
    load_unit (eraseErrs fs) d = load_unit fs d := by
  rw [load_unit, load_unit, fileEntries_eraseErrs]
  rfl

/-! ### Round-trip lemmas for the serde embedding -/

theorem rt_edition (e : Edition) : dEdition (sEdition e) = .ok e := by
  cases e <;> rfl

theorem rt_targetKind (t : TargetKind) : dTargetKind (sTargetKind t) = .ok t := by
  cases t <;> rfl

theorem rt_runnableKind (k : RunnableKind) : dRunnableKind (sRunnableKind k) = .ok k := by
  cases k <;> rfl

theorem rt_dep (d : Dep) : dDep (sDep d) = .ok d := by
  cases d
  rfl

theorem rt_build (b : Build) : dBuild (sBuild b) = .ok b := by
  obtain ⟨lb, bf, tk⟩ := b
  cases tk <;> rfl

theorem mapEx_dString (l : List String) : mapEx dString (l.map Json.str) = .ok l :=
  mapEx_rt dString Json.str l (fun _ _ => rfl)

theorem mapEx_dDep (l : List Dep) : mapEx dDep (l.map sDep) = .ok l :=
  mapEx_rt dDep sDep l (fun x _ => rt_dep x)

theorem rt_runnable (r : Runnable) : dRunnable (sRunnable r) = .ok r := by
  obtain ⟨pr, ar, cw, kn⟩ := r
  cases kn <;>
    simp [dRunnable, sRunnable, requiredField, reqField, getAll, dString, dJsonList,
      mapEx_dString, sRunnableKind, dRunnableKind]

theorem dStringSetAux_rt (l : List String) (acc : List String) (hnd : l.Nodup)
    (hdisj : ∀ x ∈ l, x ∉ acc) :
    dStringSetAux (l.map Json.str) acc = .ok (acc ++ l) := by
  induction l generalizing acc with
  | nil => simp [dStringSetAux]
  | cons x rest ih =>
    have hx : x ∉ acc := hdisj x (by simp)
    have hnd' : rest.Nodup := (List.nodup_cons.mp hnd).2
    have hxrest : x ∉ rest := (List.nodup_cons.mp hnd).1
    have hdisj' : ∀ y ∈ rest, y ∉ insertSet acc x := by
      intro y hy
      simp only [insertSet]
      rw [if_neg hx]
      simp only [List.mem_append, List.mem_singleton]
      rintro (hc | hc)
      · exact hdisj y (by simp [hy]) hc
      · exact hxrest (hc ▸ hy)
    simp only [List.map_cons, dStringSetAux]
    rw [ih (insertSet acc x) hnd' hdisj']
    simp only [insertSet]
    rw [if_neg hx]
    simp

theorem dStringSet_rt (l : List String) (hnd : l.Nodup) :
    dStringSet (Json.arr (l.map Json.str)) = .ok l := by
  have h := dStringSetAux_rt l [] hnd (by simp)
  simpa [dStringSet] using h

theorem dStringMapAux_rt (l acc : List (String × String))
    (hnd : (l.map Prod.fst).Nodup)
    (hdisj : ∀ k ∈ l.map Prod.fst, k ∉ acc.map Prod.fst) :
    dStringMapAux (l.map (fun kv => (kv.1, Json.str kv.2))) acc = .ok (acc ++ l) := by
  induction l generalizing acc with
  | nil => simp [dStringMapAux]
  | cons kv rest ih =>
    obtain ⟨k, v⟩ := kv
    have hk : k ∉ acc.map Prod.fst := hdisj k (by simp)
    have hnd2 : (rest.map Prod.fst).Nodup := by
      rw [List.map_cons] at hnd
      exact (List.nodup_cons.mp hnd).2
    have hkrest : k ∉ rest.map Prod.fst := by
      rw [List.map_cons] at hnd
      exact (List.nodup_cons.mp hnd).1
    have hdisj' : ∀ k2 ∈ rest.map Prod.fst, k2 ∉ (insertMap acc k v).map Prod.fst := by
      intro k2 hk2
      rw [insertMap_fresh acc k v hk]
      simp only [List.map_append, List.mem_append]
      rintro (hc | hc)
      · exact hdisj k2 (by simp [hk2]) hc
      · have hkk : k2 = k := by simpa using hc
        exact hkrest (hkk ▸ hk2)
    simp only [List.map_cons, dStringMapAux]
    rw [ih (insertMap acc k v) hnd2 hdisj']
    rw [insertMap_fresh acc k v hk]
    simp

theorem dStringMap_rt (l : List (String × String)) (hnd : (l.map Prod.fst).Nodup) :
    dStringMap (Json.obj (l.map (fun kv => (kv.1, Json.str kv.2)))) = .ok l := by
  have h := dStringMapAux_rt l [] hnd (by simp)
  simpa [dStringMap] using h

theorem rt_source (s : Source) (h : WFSource s) : dSource (sSource s) = .ok s := by
  obtain ⟨inc, exc⟩ := s
  obtain ⟨h1, h2⟩ := h
  simp [dSource, sSource, requiredField, reqField, getAll,
    dStringSet_rt inc h1, dStringSet_rt exc h2]

set_option maxHeartbeats 1600000

theorem dOpt_sBuild (b : Build) : dOpt dBuild (sBuild b) = .ok (some b) := by
  have hb := rt_build b
  obtain ⟨lb, bf, tk⟩ := b
  simp only [sBuild] at hb ⊢
  simp [dOpt, hb]

theorem dOpt_sSource (s : Source) (h : WFSource s) :
    dOpt dSource (sSource s) = .ok (some s) := by
  have hs := rt_source s h
  obtain ⟨inc, exc⟩ := s
  simp only [sSource] at hs ⊢
  simp [dOpt, hs]

theorem dOpt_null {α : Type} (d : Json → Except String α) : dOpt d Json.null = .ok none := rfl

theorem dOpt_dString_str (s : String) : dOpt dString (Json.str s) = .ok (some s) := rfl

theorem rt_crate (c : Crate) (h : WFCrate c) : dCrate (sCrate c) = .ok c := by
  obtain ⟨dn, rm, ed, dps, wm, src, cfg, tgt, bld, env, pm, pmd⟩ := c
  obtain ⟨henv, hsrc⟩ := h
  have henv' : (env.map Prod.fst).Nodup := henv
  have hmap := dStringMap_rt env henv'
  cases src with
  | none =>
    cases dn <;> cases tgt <;> cases bld <;> cases pmd <;>
      simp [dCrate, sCrate, optPair, jStrOpt, requiredField, optionField, optField,
        reqField, getAll, dString, dBool, dJsonList, rt_edition, mapEx_dDep,
        mapEx_dString, hmap, dOpt_sBuild, dOpt_null, dOpt_dString_str]
  | some s =>
    have hws : WFSource s := hsrc s rfl
    have hs := dOpt_sSource s hws
    cases dn <;> cases tgt <;> cases bld <;> cases pmd <;>
      simp [dCrate, sCrate, optPair, jStrOpt, requiredField, optionField, optField,
        reqField, getAll, dString, dBool, dJsonList, rt_edition, mapEx_dDep,
        mapEx_dString, hmap, dOpt_sBuild, dOpt_null, dOpt_dString_str, hs]

theorem rt_project (p : JsonProject) (h : WFProject p) : dProject (sProject p) = .ok p := by
  obtain ⟨⟨sr, srs⟩, crates, runnables, gen⟩ := p
  have hc : mapEx dCrate (crates.map sCrate) = .ok crates :=
    mapEx_rt dCrate sCrate crates (fun c hc => rt_crate c (h c hc))
  have hr : mapEx dRunnable (runnables.map sRunnable) = .ok runnables :=
    mapEx_rt dRunnable sRunnable runnables (fun r _ => rt_runnable r)
  cases srs <;>
    simp [dProject, sProject, optPair, requiredField, optionField, optField,
      reqField, getAll, dString, dOpt, dJsonList, hc, hr]

/-! ### Deserialization produces well-formed values -/

theorem requiredField_ok_inv {α : Type} {fields : List (String × Json)} {k : String}
    {d : Json → Except String α} {v : α} (h : requiredField fields k d = .ok v) :
    ∃ j, d j = .ok v := by
  obtain ⟨j, hj, hd⟩ := andThen_ok_inv (h : andThen (reqField fields k) d = .ok v)
  exact ⟨j, hd⟩

theorem dOpt_ok_some_inv {α : Type} {d : Json → Except String α} (j : Json) (v : α)
    (h : dOpt d j = .ok (some v)) : d j = .ok v := by
  cases j <;> simp only [dOpt] at h <;> try (exact absurd h (by simp))
  all_goals
    split at h
    · exact absurd h (by simp)
    · rename_i w heq
      simp only [Except.ok.injEq, Option.some.injEq] at h
      rw [heq, h]

theorem optionField_ok_some_inv {α : Type} {fields : List (String × Json)} {k : String}
    {d : Json → Except String α} {v : α} (h : optionField fields k d = .ok (some v)) :
    ∃ j, d j = .ok v := by
  unfold optionField at h
  split at h
  · exact absurd h (by simp)
  · exact absurd h (by simp)
  · rename_i j heq
    exact ⟨j, dOpt_ok_some_inv j v h⟩

theorem dStringSetAux_nodup (xs : List Json) (acc out : List String) (hacc : acc.Nodup)
    (h : dStringSetAux xs acc = .ok out) : out.Nodup := by
  induction xs generalizing acc with
  | nil =>
    simp only [dStringSetAux, Except.ok.injEq] at h
    exact h ▸ hacc
  | cons j rest ih =>
    cases j with
    | str v =>
      simp only [dStringSetAux] at h
      apply ih (insertSet acc v) ?_ h
      simp only [insertSet]
      by_cases hv : v ∈ acc
      · simpa [hv] using hacc
      · simp [hv, List.nodup_append, hacc]
    | null => simp [dStringSetAux] at h
    | bool b => simp [dStringSetAux] at h
    | num n => simp [dStringSetAux] at h
    | arr ys => simp [dStringSetAux] at h
    | obj fl => simp [dStringSetAux] at h

theorem dStringSet_nodup (j : Json) (out : List String) (h : dStringSet j = .ok out) :
    out.Nodup := by
  cases j
  case arr xs => exact dStringSetAux_nodup xs [] out (by simp) h
  all_goals simp [dStringSet] at h

theorem dStringMapAux_nodup (fl : List (String × Json)) (acc out : List (String × String))
    (hacc : (acc.map Prod.fst).Nodup) (h : dStringMapAux fl acc = .ok out) :
    (out.map Prod.fst).Nodup := by
  induction fl generalizing acc with
  | nil =>
    simp only [dStringMapAux, Except.ok.injEq] at h
    exact h ▸ hacc
  | cons kj rest ih =>
    obtain ⟨k, j⟩ := kj
    cases j with
    | str v =>
      simp only [dStringMapAux] at h
      exact ih (insertMap acc k v) (insertMap_keys_nodup acc k v hacc) h
    | null => simp [dStringMapAux] at h
    | bool b => simp [dStringMapAux] at h
    | num n => simp [dStringMapAux] at h
    | arr ys => simp [dStringMapAux] at h
    | obj fl2 => simp [dStringMapAux] at h

theorem dStringMap_nodup (j : Json) (out : List (String × String))
    (h : dStringMap j = .ok out) : (out.map Prod.fst).Nodup := by
  cases j
  case obj fl => exact dStringMapAux_nodup fl [] out (by simp) h
  all_goals simp [dStringMap] at h

theorem mapEx_ok_mem {α β : Type} (f : α → Except String β) (xs : List α) (l : List β)
    (h : mapEx f xs = .ok l) : ∀ y ∈ l, ∃ x, x ∈ xs ∧ f x = .ok y := by
  induction xs generalizing l with
  | nil =>
    simp only [mapEx, Except.ok.injEq] at h
    subst h
    simp
  | cons x rest ih =>
    cases hfx : f x with
    | error e => simp [mapEx, hfx] at h
    | ok v =>
      cases hrest : mapEx f rest with
      | error e => simp [mapEx, hfx, hrest] at h
      | ok vs =>
        simp only [mapEx, hfx, hrest, Except.ok.injEq] at h
        subst h
        intro y hy
        rcases List.mem_cons.mp hy with hy | hy
        · exact ⟨x, by simp, by rw [hy]; exact hfx⟩
        · obtain ⟨x2, hx2, hfx2⟩ := ih vs hrest y hy
          exact ⟨x2, by simp [hx2], hfx2⟩

theorem dSource_wf (j : Json) (s : Source) (h : dSource j = .ok s) : WFSource s := by
  cases j
  case obj fields =>
    simp only [dSource] at h
    obtain ⟨inc, h1, h⟩ := andThen_ok_inv h
    obtain ⟨exc, h2, h⟩ := andThen_ok_inv h
    have hse : s = ⟨inc, exc⟩ := by
      injection h with h'
      exact h'.symm
    subst hse
    constructor
    · obtain ⟨ji, hji⟩ := requiredField_ok_inv h1
      exact dStringSet_nodup ji inc hji
    · obtain ⟨je, hje⟩ := requiredField_ok_inv h2
      exact dStringSet_nodup je exc hje
  all_goals simp [dSource] at h

theorem dCrate_wf (j : Json) (c : Crate) (h : dCrate j = .ok c) : WFCrate c := by
  cases j
  case obj fields =>
    simp only [dCrate] at h
    obtain ⟨dn, h1, h⟩ := andThen_ok_inv h
    obtain ⟨rm, h2, h⟩ := andThen_ok_inv h
    obtain ⟨ed, h3, h⟩ := andThen_ok_inv h
    obtain ⟨dps, h4, h⟩ := andThen_ok_inv h
    obtain ⟨wm, h5, h⟩ := andThen_ok_inv h
    obtain ⟨src, h6, h⟩ := andThen_ok_inv h
    obtain ⟨cfg, h7, h⟩ := andThen_ok_inv h
    obtain ⟨tgt, h8, h⟩ := andThen_ok_inv h
    obtain ⟨bld, h9, h⟩ := andThen_ok_inv h
    obtain ⟨env, h10, h⟩ := andThen_ok_inv h
    obtain ⟨pm, h11, h⟩ := andThen_ok_inv h
    obtain ⟨pmd, h12, h⟩ := andThen_ok_inv h
    have hce : c = ⟨dn, rm, ed, dps, wm, src, cfg, tgt, bld, env, pm, pmd⟩ := by
      injection h with h'
      exact h'.symm
    subst hce
    constructor
    · obtain ⟨je, hje⟩ := requiredField_ok_inv h10
      exact dStringMap_nodup je env hje
    · intro s hs
      have hs' : src = some s := hs
      obtain ⟨js, hjs⟩ := optionField_ok_some_inv (hs' ▸ h6)
      exact dSource_wf js s hjs
  all_goals simp [dCrate] at h

theorem dProject_wf (j : Json) (p : JsonProject) (h : dProject j = .ok p) :
    WFProject p := by
  cases j
  case obj fields =>
    simp only [dProject] at h
    obtain ⟨crates, h1, h⟩ := andThen_ok_inv h
    obtain ⟨runnables, h2, h⟩ := andThen_ok_inv h
    obtain ⟨gen, h3, h⟩ := andThen_ok_inv h
    obtain ⟨sr, h4, h⟩ := andThen_ok_inv h
    obtain ⟨srs, h5, h⟩ := andThen_ok_inv h
    have hpe : p = ⟨⟨sr, srs⟩, crates, runnables, gen⟩ := by
      injection h with h'
      exact h'.symm
    subst hpe
    intro c hc
    obtain ⟨jc, hjc⟩ := requiredField_ok_inv h1
    have hxs : ∃ xs, mapEx dCrate xs = .ok crates := by
      cases jc
      case arr xs => exact ⟨xs, hjc⟩
      all_goals simp [dJsonList] at hjc
    obtain ⟨xs, hxs⟩ := hxs
    obtain ⟨jx, hjx, hdx⟩ := mapEx_ok_mem dCrate xs crates hxs c hc
    exact dCrate_wf jx c hdx
  all_goals simp [dProject] at h

/-! ### Scheduler facts assembled for the claims -/

theorem sched_keys (fs : FS) (completed : List (String × String)) :
    (completed.map (fun u => (u.1, load_unit fs u.2))).map Prod.fst =
      completed.map Prod.fst := by
  rw [List.map_map]
  rfl

theorem sched_isSome_iff (fs : FS) (units completed : List (String × String))
    (hp : completed.Perm units) (n : String) :
    (lookupMap (schedule fs completed) n).isSome = true ↔ n ∈ units.map Prod.fst := by
  rw [lookup_schedule]
  have hmemiff : n ∈ completed.map Prod.fst ↔ n ∈ units.map Prod.fst :=
    (hp.map Prod.fst).mem_iff
  cases hl : lastVal (completed.map (fun u => (u.1, load_unit fs u.2))) n with
  | none =>
    have hn := (lastVal_none_iff _ n).mp hl
    rw [sched_keys] at hn
    simp only [Option.isSome_none, Bool.false_eq_true, false_iff]
    exact fun hmem => hn (hmemiff.mpr hmem)
  | some r =>
    simp only [Option.isSome_some, true_iff]
    by_contra hmem
    have hn : n ∉ (completed.map (fun u => (u.1, load_unit fs u.2))).map Prod.fst := by
      rw [sched_keys]
      exact fun hc => hmem (hmemiff.mp hc)
    rw [(lastVal_none_iff _ n).mpr hn] at hl
    cases hl

/-! ### The claims -/

/-- Claim C1 (code bug): the spec says crate resolution emits
(display_name, parent of root_module) exactly for the crates that have both,
silently dropping the rest without panicking, and that the two-crate
scenario `[{display_name: "a", root_module: "/ws/a/lib.rs"},
{display_name: null, root_module: "/ws/b/lib.rs"}]` resolves to the single
unit ("a", "/ws/a").  The code instead calls
`krate.display_name.clone().unwrap()` whenever `root_module` has a parent,
so the second crate — whose root module does have the parent `/ws/b` —
panics instead of being dropped, contradicting the code's own doc comment
that `display_name` "has no semantic significance".  This theorem evaluates
the embedded resolution at the failing input: the run aborts with the
unwrap panic, while a document containing only the first crate resolves as
the spec describes. -/
theorem c1_resolve_roots_unwrap_panics :
    resolve_roots [crateA, crateB] =
      .error ("called Option::unwrap() on a None value")
  ∧ pathParent crateB.root_module = some ("/ws/b")
  ∧ resolve_roots [crateA] = .ok [("a", "/ws/a")] :=
  ⟨rfl, rfl, rfl⟩

/-- Claim C2 counterexample: a unit whose root does not exist (the walk
yields one error, which `filter_map(|e| e.ok())` drops) produces the
successful result `Ok []`, not an `Err`, contradicting the claimed
"the unit's result is the corresponding I/O failure". -/
theorem c2_missing_root_counterexample :
    load_unit fsGone ("/gone") = Except.ok []
  ∧ exOk (load_unit fsGone ("/gone")) = true :=
  ⟨rfl, rfl⟩

/-- Claim C2 (amended): for every unit whose source root cannot be
traversed (the enumerator yields only an error), the loader does not crash
and no error surfaces: the walk error is silently dropped, so the unit's
result is the empty success `Ok []`, not an `Err`. -/
theorem c2_missing_root_silently_ok (fs : FS) (d e : String)
    (h : fs.walk d = [WalkEntry.err e]) : load_unit fs d = .ok [] := by
  rw [load_unit, fileEntries, okEntries, h]
  rfl

/-- Claim C2 witness: the amended statement at the concrete missing-root
filesystem. -/
theorem c2_missing_root_witness : load_unit fsGone ("/missing") = .ok [] :=
  c2_missing_root_silently_ok fsGone ("/missing") ("No such file or directory") rfl

/-- Claim C3: per unit, reads are attempted in the enumerator's encounter
order: if every file read succeeds the result is `Ok` of the contents in
encounter order; the first failing read short-circuits the whole unit to
that error (the conclusion does not depend on the reads after the failing
file); and a success has one entry per enumerated regular file with every
read having succeeded — no partial success. -/
theorem c3_fail_fast_per_unit (fs : FS) (d : String) :
    (∀ g : String → String,
      (∀ p ∈ fileEntries fs d, fs.read_to_string p = .ok (g p)) →
      load_unit fs d = .ok ((fileEntries fs d).map g))
  ∧ (∀ (pre : List String) (x : String) (post : List String) (e : String),
      fileEntries fs d = pre ++ x :: post →
      (∀ y ∈ pre, exOk (fs.read_to_string y) = true) →
      fs.read_to_string x = .error e →
      load_unit fs d = .error e)
  ∧ (∀ l, load_unit fs d = .ok l →
      l.length = (fileEntries fs d).length
        ∧ ∀ p ∈ fileEntries fs d, exOk (fs.read_to_string p) = true) := by
  refine ⟨?_, ?_, ?_⟩
  · intro g hg
    exact mapEx_ok_of_forall _ g _ hg
  · intro pre x post e hsplit hpre hx
    rw [load_unit, hsplit]
    exact mapEx_error_first _ pre x post e hpre hx
  · intro l hl
    exact mapEx_ok_all _ _ l hl

/-- Claim C3 witness: the short-circuit component at the unit `/ws/c`,
whose only file is unreadable. -/
theorem c3_fail_fast_witness :
    load_unit fsDemo ("/ws/c") = .error ("Permission denied (os error 13)") :=
  (c3_fail_fast_per_unit fsDemo ("/ws/c")).2.1 [] ("/ws/c/lib.rs") []
    ("Permission denied (os error 13)") rfl (by simp) rfl

/-- Claim C4: for every completion order of the resolved units, the fan-out
returns a mapping (the scheduler is a total function) whose keys are
exactly the unit names, and the entry stored under every uniquely-named
unit's name is that unit's own per-unit result — in particular one unit's
`Err` value appears only under that unit's name and never alters, removes,
or aborts any other unit's entry. -/
theorem c4_fan_out_isolation (fs : FS) (units completed : List (String × String))
    (hp : completed.Perm units) :
    (∀ n : String, (lookupMap (schedule fs completed) n).isSome = true ↔
        n ∈ units.map Prod.fst)
  ∧ (∀ n d, units.filter (fun u => decide (u.1 = n)) = [(n, d)] →
      lookupMap (schedule fs completed) n = some (load_unit fs d)) := by
  refine ⟨sched_isSome_iff fs units completed hp, ?_⟩
  intro n d hf
  exact sched_lookup_unique fs units completed n d hp hf

/-- Claim C4 witness: mixing the healthy unit "a" with the failing unit
"c", the entry under "a" is exactly unit "a"'s own result. -/
theorem c4_fan_out_witness :
    lookupMap (schedule fsDemo [("a", "/ws/a"), ("c", "/ws/c")]) ("a")
      = some (load_unit fsDemo ("/ws/a")) :=
  (c4_fan_out_isolation fsDemo [("a", "/ws/a"), ("c", "/ws/c")] _
    (List.Perm.refl _)).2 ("a") ("/ws/a") (by decide)

/-- Claim C5: when the input holds exactly two units with the same name,
the result mapping holds exactly one entry for that name, and the stored
value is one of the two units' own results — the one written later in the
completion order wins, with no warning. -/
theorem c5_last_write_wins (fs : FS) (n d1 d2 : String)
    (units completed : List (String × String)) (hp : completed.Perm units)
    (hf : units.filter (fun u => decide (u.1 = n)) = [(n, d1), (n, d2)]) :
    ((schedule fs completed).filter (fun kv => decide (kv.1 = n))).length = 1
  ∧ (lookupMap (schedule fs completed) n = some (load_unit fs d1)
     ∨ lookupMap (schedule fs completed) n = some (load_unit fs d2)) := by
  have hcf : (completed.filter (fun u => decide (u.1 = n))).Perm [(n, d1), (n, d2)] := by
    have hpf := hp.filter (fun u => decide (u.1 = n))
    rw [hf] at hpf
    exact hpf
  have htwo := perm_pair _ _ _ hcf
  have hlook : lookupMap (schedule fs completed) n = some (load_unit fs d2)
      ∨ lookupMap (schedule fs completed) n = some (load_unit fs d1) := by
    rw [lookup_schedule, lastVal_filter, filter_map_key]
    rcases htwo with h2 | h2 <;> rw [h2]
    · left
      simp [lastVal]
    · right
      simp [lastVal]
  have hsome : (lookupMap (schedule fs completed) n).isSome = true := by
    rcases hlook with h | h <;> simp [h]
  obtain ⟨v, hv⟩ := Option.isSome_iff_exists.mp hsome
  have hfil := lookup_filter_nodup (schedule fs completed) n v
    (schedule_keys_nodup fs completed) hv
  exact ⟨by rw [hfil]; rfl, hlook.symm⟩

/-- Claim C5 witness: two units named "x" with different roots; the mapping
keeps one entry equal to one of the two results. -/
theorem c5_last_write_wins_witness :
    ((schedule fsDemo [("x", "/ws/a"), ("x", "/ws/b")]).filter
        (fun kv => decide (kv.1 = "x"))).length = 1
  ∧ (lookupMap (schedule fsDemo [("x", "/ws/a"), ("x", "/ws/b")]) ("x")
        = some (load_unit fsDemo ("/ws/a"))
     ∨ lookupMap (schedule fsDemo [("x", "/ws/a"), ("x", "/ws/b")]) ("x")
        = some (load_unit fsDemo ("/ws/b"))) :=
  c5_last_write_wins fsDemo ("x") ("/ws/a") ("/ws/b") _ _
    (List.Perm.refl _) (by decide)

/-- Claim C6: for distinct-named units whose roots all enumerate without
error and whose files all read successfully, the result mapping has exactly
one entry per unit, each a success whose length is the number of regular
files the enumerator reaches under that unit's root; and crate resolution
is oblivious to the `source` include/exclude override — rewriting every
crate's `source` field leaves the resolved (name, root) list unchanged, the
loader walking everything under the root module's parent. -/
theorem c6_full_success_mapping (fs : FS) (units completed : List (String × String))
    (crates : List Crate) (src : Option Source) (hp : completed.Perm units)
    (hnd : (units.map Prod.fst).Nodup) (hg : ∀ u ∈ units, goodRoot fs u.2) :
    (schedule fs completed).length = units.length
  ∧ (∀ u ∈ units, ∃ l, lookupMap (schedule fs completed) u.1 = some (Except.ok l)
      ∧ l.length = countFiles fs u.2)
  ∧ resolve_roots (crates.map (fun c => setSource c src)) = resolve_roots crates := by
  refine ⟨?_, ?_, resolve_roots_setSource crates src⟩
  · have hndc : (completed.map Prod.fst).Nodup := ((hp.map Prod.fst).nodup_iff).mpr hnd
    have hndm : ((completed.map (fun u => (u.1, load_unit fs u.2))).map Prod.fst).Nodup := by
      rw [sched_keys]
      exact hndc
    have hfresh := insertList_fresh
      (completed.map (fun u => (u.1, load_unit fs u.2))) [] hndm (by simp)
    rw [schedule, hfresh]
    simp [hp.length_eq]
  · intro u hu
    have hf : units.filter (fun x => decide (x.1 = u.1)) = [u] :=
      nodup_filter_single units hnd u hu
    have hf2 : units.filter (fun x => decide (x.1 = u.1)) = [(u.1, u.2)] := by
      rw [hf]
    have hlook := sched_lookup_unique fs units completed u.1 u.2 hp hf2
    obtain ⟨l, hl, hlen⟩ := load_ok_of_good fs u.2 (hg u hu)
    exact ⟨l, by rw [hlook, hl], hlen⟩

/-- Claim C6 witness: the two healthy units "a" and "b" on the demo
filesystem, plus the source-override obliviousness at a concrete crate. -/
theorem c6_full_success_witness :
    (schedule fsDemo [("a", "/ws/a"), ("b", "/ws/b")]).length = 2
  ∧ (∀ u ∈ [(("a" : String), ("/ws/a" : String)), ("b", "/ws/b")], ∃ l,
      lookupMap (schedule fsDemo [("a", "/ws/a"), ("b", "/ws/b")]) u.1
        = some (Except.ok l) ∧ l.length = countFiles fsDemo u.2)
  ∧ resolve_roots ([crateA].map (fun c => setSource c none)) = resolve_roots [crateA] := by
  have hg : ∀ u ∈ [(("a" : String), ("/ws/a" : String)), ("b", "/ws/b")],
      goodRoot fsDemo u.2 := by
    intro u hu
    rcases List.mem_cons.mp hu with h | h
    · subst h
      exact ⟨rfl, rfl⟩
    · rcases List.mem_cons.mp h with h2 | h2
      · subst h2
        exact ⟨rfl, rfl⟩
      · simp at h2
  exact c6_full_success_mapping fsDemo _ _ [crateA] none (List.Perm.refl _)
    (by decide) hg

/-- Claim C7 counterexample: a serialized crate object carrying every
required field except `edition` fails to deserialize with a missing-field
error (there is no `#[serde(default)]`), and likewise a build object
omitting `target_kind`; the claim said both would deserialize successfully
with the defaults applied. -/
theorem c7_missing_edition_counterexample :
    dCrate crateObjNoEdition = .error ("missing field edition")
  ∧ dBuild buildObjNoTargetKind = .error ("missing field target_kind") :=
  ⟨rfl, rfl⟩

/-- Claim C7 (amended): present values of the enumerated fields must be one
of the literal strings "2015"/"2018"/"2021" and
bin|lib|example|test|bench|buildScript|other, each mapping to its variant
and everything else failing; the "2021" and `bin` defaults are the values
of the Rust `Default` derive (`#[default]`), not deserialization defaults —
a crate object omitting `edition`, or a build object omitting
`target_kind`, fails to deserialize with a missing-field error. -/
theorem c7_enum_literals_and_defaults :
    (dEdition (Json.str ("2015")) = .ok Edition.Edition2015
      ∧ dEdition (Json.str ("2018")) = .ok Edition.Edition2018
      ∧ dEdition (Json.str ("2021")) = .ok Edition.Edition2021)
  ∧ (dTargetKind (Json.str ("bin")) = .ok TargetKind.Bin
      ∧ dTargetKind (Json.str ("lib")) = .ok TargetKind.Lib
      ∧ dTargetKind (Json.str ("example")) = .ok TargetKind.Example
      ∧ dTargetKind (Json.str ("test")) = .ok TargetKind.Test
      ∧ dTargetKind (Json.str ("bench")) = .ok TargetKind.Bench
      ∧ dTargetKind (Json.str ("buildScript")) = .ok TargetKind.BuildScript
      ∧ dTargetKind (Json.str ("other")) = .ok TargetKind.Other)
  ∧ defaultEdition = Edition.Edition2021
  ∧ defaultTargetKind = TargetKind.Bin
  ∧ dCrate crateObjNoEdition = .error ("missing field edition")
  ∧ dBuild buildObjNoTargetKind = .error ("missing field target_kind")
  ∧ (∀ s : String, s ≠ "2015" → s ≠ "2018" → s ≠ "2021" →
      exOk (dEdition (Json.str s)) = false)
  ∧ (∀ s : String, s ≠ "bin" → s ≠ "lib" → s ≠ "example" → s ≠ "test" →
      s ≠ "bench" → s ≠ "buildScript" → s ≠ "other" →
      exOk (dTargetKind (Json.str s)) = false) := by
  refine ⟨⟨rfl, rfl, rfl⟩, ⟨rfl, rfl, rfl, rfl, rfl, rfl, rfl⟩, rfl, rfl, rfl, rfl, ?_, ?_⟩
  · intro s h1 h2 h3
    simp [dEdition, h1, h2, h3, exOk]
  · intro s h1 h2 h3 h4 h5 h6 h7
    simp [dTargetKind, h1, h2, h3, h4, h5, h6, h7, exOk]

/-- Claim C7 witness: the amended statement's rejection components at
concrete unknown variants. -/
theorem c7_enum_witness :
    exOk (dEdition (Json.str ("2024"))) = false
  ∧ exOk (dTargetKind (Json.str ("staticlib"))) = false :=
  ⟨c7_enum_literals_and_defaults.2.2.2.2.2.2.1 ("2024")
      (by decide) (by decide) (by decide),
   c7_enum_literals_and_defaults.2.2.2.2.2.2.2 ("staticlib")
      (by decide) (by decide) (by decide) (by decide) (by decide) (by decide) (by decide)⟩

/-- Claim C8: a document whose crate carries a dependency index out of
range for the three-element `crates` sequence still deserializes
successfully — no validation pass rejects the dangling index at
construction time, and the parsed project really contains a dep whose index
is at least the crate count. -/
theorem c8_dangling_dep_parses (n : Nat) (h : 3 ≤ n) :
    dProject (docWithDep n) = .ok (projWithDep n)
  ∧ ∃ c, c ∈ (projWithDep n).crates ∧ ∃ dp, dp ∈ c.deps
      ∧ (projWithDep n).crates.length ≤ dp.crate_index := by
  refine ⟨rfl, ⟨⟨some ("c"), ("/ws/c/lib.rs"), Edition.Edition2021,
    [⟨n, ("dangling")⟩], true, none, [], none, none, [], false, none⟩, ?_,
    ⟨⟨n, ("dangling")⟩, ?_, ?_⟩⟩⟩
  · simp [projWithDep]
  · simp
  · simpa [projWithDep] using h

/-- Claim C8 witness: dependency index 5 in a document with only 3 crates
parses. -/
theorem c8_dangling_dep_witness :
    dProject (docWithDep 5) = .ok (projWithDep 5)
  ∧ ∃ c, c ∈ (projWithDep 5).crates ∧ ∃ dp, dp ∈ c.deps
      ∧ (projWithDep 5).crates.length ≤ dp.crate_index :=
  c8_dangling_dep_parses 5 (by decide)

/-- Claim C9: for every document that deserializes to a project,
re-serializing that project yields a document that deserializes to the
equal project; and optional fields that are absent (`source`, `target`,
`build`, `proc_macro_dylib_path`, `sysroot_src` — the fields under
`skip_serializing_if = "Option::is_none"`) are omitted from the
re-serialized object entirely, their keys not appearing at all, rather than
being emitted as explicit nulls. -/
theorem c9_roundtrip_stable (j : Json) (p : JsonProject) (h : dProject j = .ok p) :
    dProject (sProject p) = .ok p
  ∧ (p.sysroot.sysroot_src = none → ("sysroot_src") ∉ objKeys (sProject p))
  ∧ (∀ c, c ∈ p.crates →
      (c.source = none → ("source") ∉ objKeys (sCrate c))
    ∧ (c.target = none → ("target") ∉ objKeys (sCrate c))
    ∧ (c.build = none → ("build") ∉ objKeys (sCrate c))
    ∧ (c.proc_macro_dylib_path = none →
        ("proc_macro_dylib_path") ∉ objKeys (sCrate c))) := by
  refine ⟨rt_project p (dProject_wf j p h), ?_, ?_⟩
  · intro hnone
    obtain ⟨⟨sr, srs⟩, crates, runnables, gen⟩ := p
    have hsrs : srs = none := hnone
    subst hsrs
    simp [sProject, objKeys, optPair]
  · intro c hc
    obtain ⟨dn, rm, ed, dps, wm, src, cfg, tgt, bld, env, pm, pmd⟩ := c
    refine ⟨?_, ?_, ?_, ?_⟩
    · intro hnone
      have hx : src = none := hnone
      subst hx
      cases tgt <;> cases bld <;> cases pmd <;>
        simp [sCrate, objKeys, optPair]
    · intro hnone
      have hx : tgt = none := hnone
      subst hx
      cases src <;> cases bld <;> cases pmd <;>
        simp [sCrate, objKeys, optPair]
    · intro hnone
      have hx : bld = none := hnone
      subst hx
      cases src <;> cases tgt <;> cases pmd <;>
        simp [sCrate, objKeys, optPair]
    · intro hnone
      have hx : pmd = none := hnone
      subst hx
      cases src <;> cases tgt <;> cases bld <;>
        simp [sCrate, objKeys, optPair]

/-- Claim C9 witness: the three-crate fixture document round-trips to the
equal project. -/
theorem c9_roundtrip_witness :
    dProject (sProject (projWithDep 5)) = .ok (projWithDep 5) :=
  (c9_roundtrip_stable (docWithDep 5) (projWithDep 5) rfl).1

/-- Claim C10: walk errors are invisible to the loader — removing every
error item from the enumerator's stream leaves each unit's result
unchanged, so an unreadable entry (an unreadable subdirectory, or the root
itself) is silently skipped and the unit can still succeed with the
surviving files; and an `Err` result can only originate from
`read_to_string` failing on one of the enumerated regular files. -/
theorem c10_walk_errors_skipped (fs : FS) (d : String) :
    load_unit (eraseErrs fs) d = load_unit fs d
  ∧ (∀ e, load_unit fs d = .error e →
      ∃ p, p ∈ fileEntries fs d ∧ fs.read_to_string p = .error e) := by
  refine ⟨load_unit_eraseErrs fs d, ?_⟩
  intro e he
  exact mapEx_error_source _ _ e he

/-- Claim C10 witness: the unit `/ws/e` (walk error next to a readable
file) is insensitive to dropping the walk error, and the failing unit
`/ws/c` has its error produced by a concrete enumerated file's read. -/
theorem c10_walk_errors_witness :
    load_unit (eraseErrs fsDemo) ("/ws/e") = load_unit fsDemo ("/ws/e")
  ∧ ∃ p, p ∈ fileEntries fsDemo ("/ws/c")
      ∧ fsDemo.read_to_string p = .error ("Permission denied (os error 13)") :=
  ⟨(c10_walk_errors_skipped fsDemo ("/ws/e")).1,
   (c10_walk_errors_skipped fsDemo ("/ws/c")).2
      ("Permission denied (os error 13)") rfl⟩
